import Mathlib

/-!
Shallow embedding of `src/server.js`, the collaborative-drawing server.

The server keeps two pieces of mutable state:
  * `users` — a `Map` from socket id to a user record (insertion-ordered,
    unique keys), modelled as a `List UserRecord` keyed by the `id` field;
  * `drawingHistory` — an array of drawing commands, modelled as a
    `List Command`.

Each socket event handler becomes a pure function from the state (plus the
event payload) to the new state together with the list of emitted messages.
Every emission carries a `Target` describing its delivery set:
`socket.emit` (unicast to the sender), `socket.broadcast.emit` (every
connection except the sender) and `io.emit` (every connection).
-/

namespace DrawServer

/-- A user record, as stored in the `users` map:
`{ id, color, username, cursorX, cursorY }`. -/
structure UserRecord where
  id : String
  color : String
  username : String
  cursorX : Int
  cursorY : Int
deriving Repr, DecidableEq

/-- A history-log command: either a draw command
`{ type: 'draw', userId, userColor, x1, y1, x2, y2, strokeWidth, timestamp }`
or an erase command `{ type: 'erase', userId, x, y, radius, timestamp }`. -/
inductive Command where
  | draw (userId userColor : String) (x1 y1 x2 y2 strokeWidth : Int)
      (timestamp : Nat)
  | erase (userId : String) (x y radius : Int) (timestamp : Nat)
deriving Repr, DecidableEq

/-- The `userId` field common to both command shapes. -/
def Command.userId : Command → String
  | .draw u _ _ _ _ _ _ _ => u
  | .erase u _ _ _ _ => u

/-- The payload of a `draw` client event: `{x1, y1, x2, y2, strokeWidth}`. -/
structure DrawData where
  x1 : Int
  y1 : Int
  x2 : Int
  y2 : Int
  strokeWidth : Int
deriving Repr, DecidableEq

/-- The payload of an `erase` client event: `{x, y, radius}`. -/
structure EraseData where
  x : Int
  y : Int
  radius : Int
deriving Repr, DecidableEq

/-- The server state: the `users` map (insertion-ordered, unique ids) and
the `drawingHistory` array. -/
structure State where
  users : List UserRecord
  drawingHistory : List Command
deriving Repr, DecidableEq

/-- Delivery set of an emitted message: `socket.emit` (unicast to one
connection), `socket.broadcast.emit` (all except the sender), `io.emit`
(all connections). -/
inductive Target where
  | unicast (toId : String)
  | othersOf (senderId : String)
  | all
deriving Repr, DecidableEq

/-- The outbound message vocabulary of the server. -/
inductive Msg where
  | loadDrawingHistory (h : List Command)
  | draw (c : Command)
  | erase (c : Command)
  | cursorUpdate (userId username : String) (x y : Int) (color : String)
  | undoAction (userId : String) (previousHistory : List Command)
  | canvasCleared
  | cursorRemoved (userId : String)
  | userListUpdate (l : List (String × String × String))
deriving Repr, DecidableEq

/-- Whether a message with the given target is delivered to connection
`connId` (the sender of `socket.broadcast.emit` is excluded, `io.emit`
reaches everyone, `socket.emit` only its addressee). -/
def delivers : Target → String → Bool
  | .unicast toId, connId => connId = toId
  | .othersOf senderId, connId => connId ≠ senderId
  | .all, _ => true

/-- `users.get(id)`: the record stored under key `id`, if any. -/
def usersFind (us : List UserRecord) (i : String) : Option UserRecord :=
  us.find? (fun u => u.id = i)

/-- `users.has(id)`. -/
def usersHas (us : List UserRecord) (i : String) : Bool :=
  (usersFind us i).isSome

/-- `users.set(id, r)`: overwrite in place if the key is present (a `Map`
keeps the original insertion position), otherwise append at the end. -/
def mapSet (us : List UserRecord) (i : String) (r : UserRecord) :
    List UserRecord :=
  match us with
  | [] => [r]
  | u :: rest => if u.id = i then r :: rest else u :: mapSet rest i r

/-- `users.delete(id)`: remove the (unique) entry stored under key `id`. -/
def mapDelete (us : List UserRecord) (i : String) : List UserRecord :=
  match us with
  | [] => []
  | u :: rest => if u.id = i then rest else u :: mapDelete rest i

/-- `user.cursorX = x; user.cursorY = y` on the record stored under key
`id` (in-place mutation of the map entry). -/
def updateCursor (us : List UserRecord) (i : String) (x y : Int) :
    List UserRecord :=
  match us with
  | [] => []
  | u :: rest =>
      if u.id = i then { u with cursorX := x, cursorY := y } :: rest
      else u :: updateCursor rest i x y

/-- The fixed 12-entry color palette of `generateColor`. -/
def colors : List String :=
  ["#FF6B6B", "#4ECDC4", "#45B7D1", "#FFA07A",
   "#98D8C8", "#F7DC6F", "#BB8FCE", "#85C1E2",
   "#F06292", "#AB47BC", "#7E57C2", "#5C6BC0"]

/-- `generateColor()` reads the current registry size `n` and returns
`colors[n % colors.length]`. -/
def generateColor (n : Nat) : String :=
  colors.getD (n % colors.length) ""

/-- The `broadcastUserList` payload: `{id, username, color}` per user, in
map iteration (insertion) order. -/
def listAll (us : List UserRecord) : List (String × String × String) :=
  us.map (fun u => (u.id, u.username, u.color))

/-- `broadcastUserList()`: `io.emit('userListUpdate', userList)`. -/
def broadcastUserList (us : List UserRecord) : Target × Msg :=
  (Target.all, Msg.userListUpdate (listAll us))

/-- `findLastUserAction(userId)`: scan `drawingHistory` from the tail
backwards; the index of the last (highest-index) command whose `userId`
matches, `none` for `-1`. -/
def findLastUserAction (hist : List Command) (uid : String) : Option Nat :=
  match hist with
  | [] => none
  | c :: rest =>
      match findLastUserAction rest uid with
      | some i => some (i + 1)
      | none => if c.userId = uid then some 0 else none

/-- The `connection` handler: build the record with `generateColor()` and
username `User${users.size + 1}`, insert it, send `loadDrawingHistory` to
the new socket only, then `broadcastUserList()`. -/
def handleConnect (s : State) (socketId : String) :
    State × List (Target × Msg) :=
  let userColor := generateColor s.users.length
  let username := "User" ++ toString (s.users.length + 1)
  let newUsers := mapSet s.users socketId
    { id := socketId, color := userColor, username := username,
      cursorX := 0, cursorY := 0 }
  (⟨newUsers, s.drawingHistory⟩,
   [(Target.unicast socketId, Msg.loadDrawingHistory s.drawingHistory),
    broadcastUserList newUsers])

/-- The `draw` handler: build the command with
`users.get(socket.id).color` (an unguarded lookup — `none` models the
`TypeError` raised when the record is missing), push it onto the history,
`socket.broadcast.emit('draw', command)`. -/
def handleDraw (s : State) (socketId : String) (d : DrawData)
    (timestamp : Nat) : Option (State × List (Target × Msg)) :=
  match usersFind s.users socketId with
  | none => none
  | some u =>
      let command : Command :=
        .draw socketId u.color d.x1 d.y1 d.x2 d.y2 d.strokeWidth timestamp
      some (⟨s.users, s.drawingHistory ++ [command]⟩,
        [(Target.othersOf socketId, Msg.draw command)])

/-- The `erase` handler: build the command, push it onto the history,
`socket.broadcast.emit('erase', command)`. -/
def handleErase (s : State) (socketId : String) (d : EraseData)
    (timestamp : Nat) : State × List (Target × Msg) :=
  let command : Command := .erase socketId d.x d.y d.radius timestamp
  (⟨s.users, s.drawingHistory ++ [command]⟩,
   [(Target.othersOf socketId, Msg.erase command)])

/-- The `cursorMove` handler: only if `users.has(socket.id)`, overwrite the
stored cursor position and `socket.broadcast.emit('cursorUpdate', ...)`
with the record's username and color. -/
def handleCursorMove (s : State) (socketId : String) (x y : Int) :
    State × List (Target × Msg) :=
  match usersFind s.users socketId with
  | some u =>
      (⟨updateCursor s.users socketId x y, s.drawingHistory⟩,
       [(Target.othersOf socketId,
         Msg.cursorUpdate socketId u.username x y u.color)])
  | none => (s, [])

/-- The `undo` handler: find the last action by this user; if found,
`splice` it out and `io.emit('undoAction', {userId, previousHistory})`;
otherwise do nothing. -/
def handleUndo (s : State) (socketId : String) :
    State × List (Target × Msg) :=
  match findLastUserAction s.drawingHistory socketId with
  | some i =>
      let newHist := s.drawingHistory.eraseIdx i
      (⟨s.users, newHist⟩,
       [(Target.all, Msg.undoAction socketId newHist)])
  | none => (s, [])

/-- The `clearCanvas` handler: `drawingHistory = []` then
`io.emit('canvasCleared')`. -/
def handleClearCanvas (s : State) (_socketId : String) :
    State × List (Target × Msg) :=
  (⟨s.users, []⟩, [(Target.all, Msg.canvasCleared)])

/-- The `disconnect` handler: `users.delete(socket.id)`,
`io.emit('cursorRemoved', {userId})`, then `broadcastUserList()`. -/
def handleDisconnect (s : State) (socketId : String) :
    State × List (Target × Msg) :=
  let newUsers := mapDelete s.users socketId
  (⟨newUsers, s.drawingHistory⟩,
   [(Target.all, Msg.cursorRemoved socketId),
    broadcastUserList newUsers])

/-! ### Session semantics

A run of the server is a sequence of socket events.  The transport layer
(socket.io) only dispatches an event for a connection between its
`connection` and `disconnect` events, and connection ids are never reused
within a session; `step` enforces exactly this discipline on the set of
active connection ids. -/

/-- An inbound socket event, tagged with the originating connection id. -/
inductive Event where
  | connect (socketId : String)
  | draw (socketId : String) (d : DrawData) (timestamp : Nat)
  | erase (socketId : String) (d : EraseData) (timestamp : Nat)
  | cursorMove (socketId : String) (x y : Int)
  | undo (socketId : String)
  | clearCanvas (socketId : String)
  | disconnect (socketId : String)
deriving Repr, DecidableEq

/-- The id of an event's originating connection. -/
def Event.socketId : Event → String
  | .connect i => i
  | .draw i _ _ => i
  | .erase i _ _ => i
  | .cursorMove i _ _ => i
  | .undo i => i
  | .clearCanvas i => i
  | .disconnect i => i

/-- The full system state: the set of currently active connection ids
(maintained by the transport layer) together with the server state. -/
structure SysState where
  active : List String
  st : State
deriving Repr, DecidableEq

/-- One dispatched event.  `none` means the event cannot occur (event from
a connection that is not active, reconnect of an active id) or that the
handler crashed (the unguarded lookup in `draw`). -/
def step (sys : SysState) (e : Event) : Option SysState :=
  match e with
  | .connect sid =>
      if sid ∈ sys.active then none
      else some ⟨sid :: sys.active, (handleConnect sys.st sid).1⟩
  | .draw sid d ts =>
      if sid ∈ sys.active then
        match handleDraw sys.st sid d ts with
        | some r => some ⟨sys.active, r.1⟩
        | none => none
      else none
  | .erase sid d ts =>
      if sid ∈ sys.active then
        some ⟨sys.active, (handleErase sys.st sid d ts).1⟩
      else none
  | .cursorMove sid x y =>
      if sid ∈ sys.active then
        some ⟨sys.active, (handleCursorMove sys.st sid x y).1⟩
      else none
  | .undo sid =>
      if sid ∈ sys.active then
        some ⟨sys.active, (handleUndo sys.st sid).1⟩
      else none
  | .clearCanvas sid =>
      if sid ∈ sys.active then
        some ⟨sys.active, (handleClearCanvas sys.st sid).1⟩
      else none
  | .disconnect sid =>
      if sid ∈ sys.active then
        some ⟨sys.active.filter (fun j => j ≠ sid),
              (handleDisconnect sys.st sid).1⟩
      else none

/-- Run a sequence of events from a given system state. -/
def execFrom (sys : SysState) : List Event → Option SysState
  | [] => some sys
  | e :: rest =>
      match step sys e with
      | some sys2 => execFrom sys2 rest
      | none => none

/-- The initial system state: no connections, empty registry, empty log. -/
def initSys : SysState := ⟨[], ⟨[], []⟩⟩

/-- Run a sequence of events from the initial state. -/
def exec (evs : List Event) : Option SysState := execFrom initSys evs

/-! ### Helper lemmas about the map operations -/

theorem usersFind_cons (u : UserRecord) (rest : List UserRecord)
    (i : String) :
    usersFind (u :: rest) i =
      if u.id = i then some u else usersFind rest i := by
  by_cases h : u.id = i
  · simp [usersFind, List.find?_cons_of_pos, h]
  · simp [usersFind, List.find?_cons_of_neg, h]

theorem usersHas_false_iff (us : List UserRecord) (i : String) :
    usersHas us i = false ↔ ∀ u ∈ us, u.id ≠ i := by
  have h1 : usersHas us i = false ↔ usersFind us i = none := by
    unfold usersHas
    cases usersFind us i <;> simp
  rw [h1]
  simp [usersFind, List.find?_eq_none]

theorem usersHas_true_iff (us : List UserRecord) (i : String) :
    usersHas us i = true ↔ ∃ u, usersFind us i = some u := by
  simp [usersHas, Option.isSome_iff_exists]

theorem mapSet_fresh (us : List UserRecord) (i : String) (r : UserRecord)
    (h : usersHas us i = false) : mapSet us i r = us ++ [r] := by
  induction us with
  | nil => rfl
  | cons u rest ih =>
      rw [usersHas_false_iff] at h
      have hu : u.id ≠ i := h u (by simp)
      have hrest : usersHas rest i = false := by
        rw [usersHas_false_iff]
        exact fun v hv => h v (by simp [hv])
      simp [mapSet, hu, ih hrest]

theorem usersFind_mapSet_self (us : List UserRecord) (i : String)
    (r : UserRecord) (hr : r.id = i) :
    usersFind (mapSet us i r) i = some r := by
  induction us with
  | nil => simp [mapSet, usersFind_cons, hr]
  | cons u rest ih =>
      by_cases h : u.id = i
      · simp [mapSet, h, usersFind_cons, hr]
      · simp [mapSet, h, usersFind_cons, ih]

theorem usersFind_mapSet_ne (us : List UserRecord) (i j : String)
    (r : UserRecord) (hr : r.id = i) (hj : j ≠ i) :
    usersFind (mapSet us i r) j = usersFind us j := by
  have hij : i ≠ j := fun h => hj h.symm
  induction us with
  | nil =>
      show usersFind [r] j = usersFind [] j
      rw [usersFind_cons, hr, if_neg hij]
  | cons u rest ih =>
      by_cases h : u.id = i
      · simp only [mapSet, if_pos h]
        rw [usersFind_cons, usersFind_cons, hr, h, if_neg hij, if_neg hij]
      · simp only [mapSet, if_neg h]
        rw [usersFind_cons, usersFind_cons, ih]

theorem usersFind_mapDelete_ne (us : List UserRecord) (i j : String)
    (hj : j ≠ i) :
    usersFind (mapDelete us i) j = usersFind us j := by
  have hij : i ≠ j := fun h => hj h.symm
  induction us with
  | nil => rfl
  | cons u rest ih =>
      by_cases h : u.id = i
      · simp only [mapDelete, if_pos h]
        rw [usersFind_cons, h, if_neg hij]
      · simp only [mapDelete, if_neg h]
        rw [usersFind_cons, usersFind_cons, ih]

theorem mapDelete_of_not_has (us : List UserRecord) (i : String)
    (h : usersHas us i = false) : mapDelete us i = us := by
  induction us with
  | nil => rfl
  | cons u rest ih =>
      rw [usersHas_false_iff] at h
      have hu : u.id ≠ i := h u (by simp)
      have hrest : usersHas rest i = false := by
        rw [usersHas_false_iff]
        exact fun v hv => h v (by simp [hv])
      simp [mapDelete, hu, ih hrest]

theorem length_mapDelete (us : List UserRecord) (i : String)
    (h : usersHas us i = true) :
    (mapDelete us i).length + 1 = us.length := by
  induction us with
  | nil => simp [usersHas, usersFind] at h
  | cons u rest ih =>
      by_cases hu : u.id = i
      · simp [mapDelete, hu]
      · have hrest : usersHas rest i = true := by
          rw [usersHas_true_iff] at h ⊢
          rcases h with ⟨v, hv⟩
          rw [usersFind_cons] at hv
          simp [hu] at hv
          exact ⟨v, hv⟩
        simp [mapDelete, hu, ih hrest]

theorem mem_mapDelete_ne (us : List UserRecord) (i : String)
    (hnd : (us.map (fun u => u.id)).Nodup) :
    ∀ u ∈ mapDelete us i, u.id ≠ i := by
  induction us with
  | nil => simp [mapDelete]
  | cons u rest ih =>
      simp only [List.map_cons, List.nodup_cons] at hnd
      by_cases hu : u.id = i
      · intro v hv
        simp only [mapDelete, if_pos hu] at hv
        intro hvi
        exact hnd.1 (by
          rw [List.mem_map]
          exact ⟨v, hv, by rw [hvi, hu]⟩)
      · intro v hv
        simp only [mapDelete, if_neg hu] at hv
        rcases List.mem_cons.mp hv with h | h
        · rw [h]; exact hu
        · exact ih hnd.2 v h

theorem usersHas_mapDelete_self (us : List UserRecord) (i : String)
    (hnd : (us.map (fun u => u.id)).Nodup) :
    usersHas (mapDelete us i) i = false := by
  rw [usersHas_false_iff]
  exact mem_mapDelete_ne us i hnd

theorem usersFind_updateCursor_self (us : List UserRecord) (i : String)
    (x y : Int) (u : UserRecord) (h : usersFind us i = some u) :
    usersFind (updateCursor us i x y) i =
      some { u with cursorX := x, cursorY := y } := by
  induction us with
  | nil => simp [usersFind] at h
  | cons v rest ih =>
      by_cases hv : v.id = i
      · rw [usersFind_cons, if_pos hv] at h
        cases h
        simp [updateCursor, hv, usersFind_cons]
      · rw [usersFind_cons, if_neg hv] at h
        simp [updateCursor, hv, usersFind_cons, ih h]

theorem usersHas_updateCursor (us : List UserRecord) (i j : String)
    (x y : Int) :
    usersHas (updateCursor us i x y) j = usersHas us j := by
  induction us with
  | nil => rfl
  | cons v rest ih =>
      simp only [usersHas] at ih ⊢
      by_cases hv : v.id = i
      · simp only [updateCursor, if_pos hv, usersFind_cons]
        by_cases hj : v.id = j
        · simp [hj]
        · simp [hj]
      · simp only [updateCursor, if_neg hv, usersFind_cons]
        by_cases hj : v.id = j
        · simp [hj]
        · simp [hj, ih]

/-! ### Helper lemmas about `findLastUserAction` -/

theorem findLastUserAction_eq_none_iff (hist : List Command) (uid : String) :
    findLastUserAction hist uid = none ↔ ∀ c ∈ hist, c.userId ≠ uid := by
  induction hist with
  | nil => simp [findLastUserAction]
  | cons c rest ih =>
      simp only [findLastUserAction]
      cases h : findLastUserAction rest uid with
      | some i =>
          constructor
          · intro h2; simp at h2
          · intro h2
            have hr : ∀ d ∈ rest, d.userId ≠ uid :=
              fun d hd => h2 d (List.mem_cons_of_mem _ hd)
            rw [ih.mpr hr] at h
            simp at h
      | none =>
          have hrest : ∀ d ∈ rest, d.userId ≠ uid := ih.mp h
          by_cases hc : c.userId = uid
          · simp only [if_pos hc]
            constructor
            · intro h2; simp at h2
            · intro h2; exact absurd hc (h2 c (by simp))
          · simp only [if_neg hc]
            constructor
            · intro _ d hd
              rcases List.mem_cons.mp hd with h2 | h2
              · rw [h2]; exact hc
              · exact hrest d h2
            · intro _; trivial

theorem findLastUserAction_spec (hist : List Command) (uid : String)
    (i : Nat) (h : findLastUserAction hist uid = some i) :
    (∃ c, hist[i]? = some c ∧ c.userId = uid) ∧
      ∀ j c, i < j → hist[j]? = some c → c.userId ≠ uid := by
  induction hist generalizing i with
  | nil => simp [findLastUserAction] at h
  | cons c rest ih =>
      simp only [findLastUserAction] at h
      cases hr : findLastUserAction rest uid with
      | some k =>
          rw [hr] at h
          cases h
          rcases ih k hr with ⟨⟨d, hd, hdu⟩, hmax⟩
          refine ⟨⟨d, by simpa using hd, hdu⟩, ?_⟩
          intro j e hj he
          cases j with
          | zero => omega
          | succ j' =>
              have : rest[j']? = some e := by simpa using he
              exact hmax j' e (by omega) this
      | none =>
          rw [hr] at h
          by_cases hc : c.userId = uid
          · rw [if_pos hc] at h
            cases h
            refine ⟨⟨c, by simp, hc⟩, ?_⟩
            intro j e hj he
            cases j with
            | zero => omega
            | succ j' =>
                have hme : e ∈ rest := by
                  have h3 : rest[j']? = some e := by simpa using he
                  exact List.getElem?_mem h3
                exact (findLastUserAction_eq_none_iff rest uid).mp hr e hme
          · rw [if_neg hc] at h
            cases h

/-! ### Claim theorems -/

/-- Claim C2: a connect inserts a record whose color is
`palette[currentSize % paletteLength]`, whose username is
`"User" ++ (currentSize + 1)` (sizes taken immediately before insertion),
whose cursor starts at `(0, 0)`; the registry size grows by exactly one. -/
theorem connect_assigns_identity (s : State) (sid : String)
    (h : usersHas s.users sid = false) :
    (handleConnect s sid).1.users =
      s.users ++
        [⟨sid, colors.getD (s.users.length % colors.length) "",
          "User" ++ toString (s.users.length + 1), 0, 0⟩] ∧
    (handleConnect s sid).1.users.length = s.users.length + 1 := by
  have h1 :
      (handleConnect s sid).1.users =
        s.users ++
          [⟨sid, colors.getD (s.users.length % colors.length) "",
            "User" ++ toString (s.users.length + 1), 0, 0⟩] := by
    simp only [handleConnect, generateColor]
    exact mapSet_fresh s.users sid _ h
  refine ⟨h1, ?_⟩
  rw [h1]
  simp

/-- Witness for C2 at the empty registry and connection id `a`. -/
theorem connect_assigns_identity_witness :
    (handleConnect ⟨[], []⟩ "a").1.users =
      [⟨"a", colors.getD 0 "", "User" ++ toString 1, 0, 0⟩] ∧
    (handleConnect ⟨[], []⟩ "a").1.users.length = 1 := by
  have h := connect_assigns_identity ⟨[], []⟩ "a" (by decide)
  exact ⟨by simpa using h.1, h.2⟩

/-- Claim C3: the `loadDrawingHistory` payload sent to a connecting client
is exactly the history log as it stands at join time, unicast to the joiner
only, emitted before the user-list broadcast to all connections; that
user-list broadcast reflects the registry after the insertion (it already
contains the new joiner's record). -/
theorem connect_unicasts_history_then_broadcasts_userlist (s : State)
    (sid : String) :
    (handleConnect s sid).2 =
      [(Target.unicast sid, Msg.loadDrawingHistory s.drawingHistory),
       (Target.all,
        Msg.userListUpdate (listAll (handleConnect s sid).1.users))] ∧
    (usersHas s.users sid = false →
      (sid, "User" ++ toString (s.users.length + 1),
        generateColor s.users.length) ∈
          listAll (handleConnect s sid).1.users) := by
  constructor
  · rfl
  · intro h
    have h1 := (connect_assigns_identity s sid h).1
    rw [h1]
    simp [listAll, generateColor]

/-- Witness for C3 at the empty state and connection id `a`. -/
theorem connect_unicasts_history_witness :
    (handleConnect ⟨[], []⟩ "a").2 =
      [(Target.unicast "a", Msg.loadDrawingHistory []),
       (Target.all,
        Msg.userListUpdate (listAll (handleConnect ⟨[], []⟩ "a").1.users))] ∧
    ("a", "User" ++ toString 1, generateColor 0) ∈
      listAll (handleConnect ⟨[], []⟩ "a").1.users := by
  have h := connect_unicasts_history_then_broadcasts_userlist ⟨[], []⟩ "a"
  exact ⟨h.1, h.2 (by decide)⟩

/-- Claim C5: `clearCanvas` leaves the history log empty unconditionally,
and it is idempotent: clearing twice in a row yields the same (empty)
state as clearing once. -/
theorem clearCanvas_empties_and_idempotent (s : State) (sid sid2 : String) :
    (handleClearCanvas s sid).1.drawingHistory = [] ∧
    (handleClearCanvas (handleClearCanvas s sid).1 sid2).1 =
      (handleClearCanvas s sid).1 := by
  exact ⟨rfl, rfl⟩

/-- Claim C8: a sequence of connects and disconnects can leave two
simultaneously registered users holding the same username (`b` and `c`
both become `User2` after `a` leaves between the two joins). -/
theorem duplicate_usernames_reachable :
    ∃ sys : SysState,
      exec [Event.connect "a", Event.connect "b", Event.disconnect "a",
            Event.connect "c"] = some sys ∧
      ∃ u v, u ∈ sys.st.users ∧ v ∈ sys.st.users ∧ u.id ≠ v.id ∧
        u.username = v.username := by
  refine ⟨⟨["c", "b"],
    ⟨[⟨"b", "#4ECDC4", "User2", 0, 0⟩, ⟨"c", "#4ECDC4", "User2", 0, 0⟩],
     []⟩⟩, by decide, ?_⟩
  exact ⟨⟨"b", "#4ECDC4", "User2", 0, 0⟩, ⟨"c", "#4ECDC4", "User2", 0, 0⟩,
    by simp, by simp, by decide, rfl⟩

/-- Claim C1: undo removes exactly one entry — the highest-index entry
whose `userId` equals the requester's id, regardless of command type —
emitting an `undoAction` broadcast; if the requester has no entry in the
log, the log is unchanged and nothing is emitted. -/
theorem undo_removes_last_action (s : State) (sid : String) :
    ((∀ c ∈ s.drawingHistory, c.userId ≠ sid) →
      handleUndo s sid = (s, [])) ∧
    ((∃ c ∈ s.drawingHistory, c.userId = sid) →
      ∃ i, findLastUserAction s.drawingHistory sid = some i ∧
        (∃ c, s.drawingHistory[i]? = some c ∧ c.userId = sid) ∧
        (∀ j c, i < j → s.drawingHistory[j]? = some c →
          c.userId ≠ sid) ∧
        handleUndo s sid =
          (⟨s.users, s.drawingHistory.eraseIdx i⟩,
           [(Target.all,
             Msg.undoAction sid (s.drawingHistory.eraseIdx i))]) ∧
        (s.drawingHistory.eraseIdx i).length + 1 =
          s.drawingHistory.length) := by
  constructor
  · intro h
    have hn : findLastUserAction s.drawingHistory sid = none :=
      (findLastUserAction_eq_none_iff _ _).mpr h
    simp [handleUndo, hn]
  · rintro ⟨c, hc, hcu⟩
    cases hi : findLastUserAction s.drawingHistory sid with
    | none =>
        exact absurd hcu ((findLastUserAction_eq_none_iff _ _).mp hi c hc)
    | some i =>
        rcases findLastUserAction_spec _ _ i hi with ⟨⟨d, hd, hdu⟩, hmax⟩
        have hlt : i < s.drawingHistory.length := by
          rcases List.getElem?_eq_some_iff.mp hd with ⟨hl, _⟩
          exact hl
        refine ⟨i, rfl, ⟨d, hd, hdu⟩, hmax, ?_, ?_⟩
        · simp [handleUndo, hi]
        · exact List.length_eraseIdx_add_one hlt

/-- Witness for C1: a three-command log where user `a` holds indices 0
and 1 (a draw then an erase) and user `b` holds index 2; undo from `a`
removes index 1 (the erase — most recent of `a` despite the later draw of
`b`), and undo from `z` (no entries) is a no-op with no emission. -/
theorem undo_removes_last_action_witness :
    (handleUndo ⟨[], [Command.draw "a" "#FF6B6B" 0 0 1 1 2 10,
        Command.erase "a" 5 5 3 11,
        Command.draw "b" "#4ECDC4" 0 0 1 1 2 12]⟩ "z" =
      (⟨[], [Command.draw "a" "#FF6B6B" 0 0 1 1 2 10,
        Command.erase "a" 5 5 3 11,
        Command.draw "b" "#4ECDC4" 0 0 1 1 2 12]⟩, [])) ∧
    (∃ i, findLastUserAction [Command.draw "a" "#FF6B6B" 0 0 1 1 2 10,
        Command.erase "a" 5 5 3 11,
        Command.draw "b" "#4ECDC4" 0 0 1 1 2 12] "a" = some i ∧
      (∃ c, [Command.draw "a" "#FF6B6B" 0 0 1 1 2 10,
        Command.erase "a" 5 5 3 11,
        Command.draw "b" "#4ECDC4" 0 0 1 1 2 12][i]? = some c ∧
        c.userId = "a") ∧
      (∀ j c, i < j →
        [Command.draw "a" "#FF6B6B" 0 0 1 1 2 10,
          Command.erase "a" 5 5 3 11,
          Command.draw "b" "#4ECDC4" 0 0 1 1 2 12][j]? = some c →
        c.userId ≠ "a") ∧
      handleUndo ⟨[], [Command.draw "a" "#FF6B6B" 0 0 1 1 2 10,
          Command.erase "a" 5 5 3 11,
          Command.draw "b" "#4ECDC4" 0 0 1 1 2 12]⟩ "a" =
        (⟨[], [Command.draw "a" "#FF6B6B" 0 0 1 1 2 10,
            Command.erase "a" 5 5 3 11,
            Command.draw "b" "#4ECDC4" 0 0 1 1 2 12].eraseIdx i⟩,
         [(Target.all, Msg.undoAction "a"
            ([Command.draw "a" "#FF6B6B" 0 0 1 1 2 10,
              Command.erase "a" 5 5 3 11,
              Command.draw "b" "#4ECDC4" 0 0 1 1 2 12].eraseIdx i))]) ∧
      ([Command.draw "a" "#FF6B6B" 0 0 1 1 2 10,
        Command.erase "a" 5 5 3 11,
        Command.draw "b" "#4ECDC4" 0 0 1 1 2 12].eraseIdx i).length + 1 =
        3) := by
  constructor
  · exact (undo_removes_last_action _ "z").1 (by decide)
  · exact (undo_removes_last_action ⟨[],
      [Command.draw "a" "#FF6B6B" 0 0 1 1 2 10,
       Command.erase "a" 5 5 3 11,
       Command.draw "b" "#4ECDC4" 0 0 1 1 2 12]⟩ "a").2
      ⟨Command.erase "a" 5 5 3 11, by decide, rfl⟩

/-- Claim C6: `cursorMove` from an unregistered sender is a complete no-op
(state unchanged, nothing emitted); from a registered sender it overwrites
the stored cursor position and emits a `cursorUpdate` to all other
connections, leaving the log unchanged. -/
theorem cursorMove_updates_or_noop (s : State) (sid : String) (x y : Int) :
    (usersHas s.users sid = false →
      handleCursorMove s sid x y = (s, [])) ∧
    (∀ u, usersFind s.users sid = some u →
      handleCursorMove s sid x y =
        (⟨updateCursor s.users sid x y, s.drawingHistory⟩,
         [(Target.othersOf sid,
           Msg.cursorUpdate sid u.username x y u.color)]) ∧
      usersFind (updateCursor s.users sid x y) sid =
        some ⟨u.id, u.color, u.username, x, y⟩) := by
  constructor
  · intro h
    have hn : usersFind s.users sid = none := by
      unfold usersHas at h
      cases hf : usersFind s.users sid with
      | none => rfl
      | some u => rw [hf] at h; simp at h
    simp [handleCursorMove, hn]
  · intro u hu
    refine ⟨?_, ?_⟩
    · unfold handleCursorMove
      rw [hu]
    · exact usersFind_updateCursor_self s.users sid x y u hu

/-- Witness for C6: sender `z` is unregistered (no-op); sender `a` is
registered, its cursor moves to `(7, 8)`. -/
theorem cursorMove_updates_or_noop_witness :
    (handleCursorMove ⟨[⟨"a", "#FF6B6B", "User1", 0, 0⟩], []⟩ "z" 7 8 =
      (⟨[⟨"a", "#FF6B6B", "User1", 0, 0⟩], []⟩, [])) ∧
    (handleCursorMove ⟨[⟨"a", "#FF6B6B", "User1", 0, 0⟩], []⟩ "a" 7 8 =
      (⟨updateCursor [⟨"a", "#FF6B6B", "User1", 0, 0⟩] "a" 7 8, []⟩,
       [(Target.othersOf "a",
         Msg.cursorUpdate "a" "User1" 7 8 "#FF6B6B")])) ∧
    usersFind (updateCursor [⟨"a", "#FF6B6B", "User1", 0, 0⟩] "a" 7 8)
        "a" = some ⟨"a", "#FF6B6B", "User1", 7, 8⟩ := by
  have h1 := (cursorMove_updates_or_noop
    ⟨[⟨"a", "#FF6B6B", "User1", 0, 0⟩], []⟩ "z" 7 8).1 (by decide)
  have h2 := (cursorMove_updates_or_noop
    ⟨[⟨"a", "#FF6B6B", "User1", 0, 0⟩], []⟩ "a" 7 8).2
    ⟨"a", "#FF6B6B", "User1", 0, 0⟩ (by decide)
  exact ⟨h1, h2.1, h2.2⟩

/-- Claim C7: a disconnect removes the id from the registry (size drops by
one when it was registered), leaves every history-log entry unchanged, and
emits to all connections a `cursorRemoved` for that id followed by the
refreshed user list, which excludes that id. -/
theorem disconnect_removes_user (s : State) (sid : String)
    (hnd : (s.users.map (fun u => u.id)).Nodup) :
    usersHas (handleDisconnect s sid).1.users sid = false ∧
    (usersHas s.users sid = true →
      (handleDisconnect s sid).1.users.length + 1 = s.users.length) ∧
    (handleDisconnect s sid).1.drawingHistory = s.drawingHistory ∧
    (handleDisconnect s sid).2 =
      [(Target.all, Msg.cursorRemoved sid),
       (Target.all,
        Msg.userListUpdate (listAll (handleDisconnect s sid).1.users))] ∧
    (∀ p ∈ listAll (handleDisconnect s sid).1.users, p.1 ≠ sid) := by
  refine ⟨?_, ?_, rfl, rfl, ?_⟩
  · exact usersHas_mapDelete_self s.users sid hnd
  · intro h
    exact length_mapDelete s.users sid h
  · intro p hp
    rcases List.mem_map.mp hp with ⟨u, hu, hup⟩
    have := mem_mapDelete_ne s.users sid hnd u hu
    rw [← hup]
    exact this

/-- Witness for C7: `a` disconnects from a two-user registry with one
logged command; `b` stays, the log survives. -/
theorem disconnect_removes_user_witness :
    usersHas (handleDisconnect ⟨[⟨"a", "#FF6B6B", "User1", 0, 0⟩,
        ⟨"b", "#4ECDC4", "User2", 0, 0⟩],
        [Command.erase "a" 0 0 1 5]⟩ "a").1.users "a" = false ∧
    (handleDisconnect ⟨[⟨"a", "#FF6B6B", "User1", 0, 0⟩,
        ⟨"b", "#4ECDC4", "User2", 0, 0⟩],
        [Command.erase "a" 0 0 1 5]⟩ "a").1.users.length + 1 = 2 ∧
    (handleDisconnect ⟨[⟨"a", "#FF6B6B", "User1", 0, 0⟩,
        ⟨"b", "#4ECDC4", "User2", 0, 0⟩],
        [Command.erase "a" 0 0 1 5]⟩ "a").1.drawingHistory =
      [Command.erase "a" 0 0 1 5] := by
  have h := disconnect_removes_user ⟨[⟨"a", "#FF6B6B", "User1", 0, 0⟩,
    ⟨"b", "#4ECDC4", "User2", 0, 0⟩],
    [Command.erase "a" 0 0 1 5]⟩ "a" (by decide)
  exact ⟨h.1, h.2.1 (by decide), h.2.2.1⟩

/-- Claim C4: every message emitted by the draw and erase handlers is
delivered to every connection except the originating one, while the
`undoAction` message (when an entry was removed) and the `canvasCleared`
message are delivered to every connection, the originating one included. -/
theorem broadcast_delivery_targets (s : State) (sid other : String)
    (hne : other ≠ sid) :
    (∀ d ts r, handleDraw s sid d ts = some r →
      ∀ tm ∈ r.2, delivers tm.1 sid = false ∧ delivers tm.1 other = true) ∧
    (∀ d ts, ∀ tm ∈ (handleErase s sid d ts).2,
      delivers tm.1 sid = false ∧ delivers tm.1 other = true) ∧
    ((∃ c ∈ s.drawingHistory, c.userId = sid) →
      (handleUndo s sid).2 ≠ [] ∧
      ∀ tm ∈ (handleUndo s sid).2,
        delivers tm.1 sid = true ∧ delivers tm.1 other = true) ∧
    (∀ tm ∈ (handleClearCanvas s sid).2,
      delivers tm.1 sid = true ∧ delivers tm.1 other = true) := by
  refine ⟨?_, ?_, ?_, ?_⟩
  · intro d ts r hr tm htm
    unfold handleDraw at hr
    cases hf : usersFind s.users sid with
    | none => rw [hf] at hr; cases hr
    | some u =>
        rw [hf] at hr
        cases hr
        simp only [List.mem_singleton] at htm
        rw [htm]
        exact ⟨by simp [delivers], by simp [delivers, hne]⟩
  · intro d ts tm htm
    simp only [handleErase, List.mem_singleton] at htm
    rw [htm]
    exact ⟨by simp [delivers], by simp [delivers, hne]⟩
  · rintro ⟨c, hc, hcu⟩
    cases hi : findLastUserAction s.drawingHistory sid with
    | none =>
        exact absurd hcu ((findLastUserAction_eq_none_iff _ _).mp hi c hc)
    | some i =>
        constructor
        · simp [handleUndo, hi]
        · intro tm htm
          simp only [handleUndo, hi, List.mem_singleton] at htm
          rw [htm]
          exact ⟨rfl, rfl⟩
  · intro tm htm
    simp only [handleClearCanvas, List.mem_singleton] at htm
    rw [htm]
    exact ⟨rfl, rfl⟩

/-- Witness for C4: with sender `a` and observer `b`, the erase broadcast
skips `a` and reaches `b`; the undo and clear broadcasts reach both. -/
theorem broadcast_delivery_targets_witness :
    (delivers (Target.othersOf "a") "a" = false ∧
     delivers (Target.othersOf "a") "b" = true) ∧
    (delivers Target.all "a" = true ∧ delivers Target.all "b" = true) := by
  have h := broadcast_delivery_targets
    ⟨[⟨"a", "#FF6B6B", "User1", 0, 0⟩], [Command.erase "a" 0 0 1 5]⟩
    "a" "b" (by decide)
  refine ⟨h.2.1 ⟨0, 0, 1⟩ 7 (Target.othersOf "a",
    Msg.erase (Command.erase "a" 0 0 1 7)) (by decide), ?_⟩
  have h2 := (h.2.2.1 ⟨Command.erase "a" 0 0 1 5, by decide, rfl⟩).2
    (Target.all, Msg.undoAction "a" []) (by decide)
  exact h2

/-! ### The registration invariant (C9) -/

/-- Invariant: every currently active connection has a registry entry. -/
def ActiveRegistered (sys : SysState) : Prop :=
  ∀ i ∈ sys.active, usersHas sys.st.users i = true

theorem handleUndo_users (s : State) (sid : String) :
    (handleUndo s sid).1.users = s.users := by
  unfold handleUndo
  cases findLastUserAction s.drawingHistory sid <;> rfl

theorem handleCursorMove_has (s : State) (sid : String) (x y : Int)
    (j : String) :
    usersHas (handleCursorMove s sid x y).1.users j =
      usersHas s.users j := by
  unfold handleCursorMove
  cases usersFind s.users sid with
  | none => rfl
  | some u => exact usersHas_updateCursor s.users sid j x y

theorem step_preserves_activeRegistered (sys sys2 : SysState) (e : Event)
    (hinv : ActiveRegistered sys) (h : step sys e = some sys2) :
    ActiveRegistered sys2 := by
  cases e with
  | connect sid =>
      simp only [step] at h
      by_cases hm : sid ∈ sys.active
      · rw [if_pos hm] at h; cases h
      · rw [if_neg hm] at h
        cases h
        intro i hi
        rcases List.mem_cons.mp hi with hisid | hiact
        · subst hisid
          show usersHas (mapSet sys.st.users i _) i = true
          rw [usersHas, usersFind_mapSet_self sys.st.users i _ rfl]
          rfl
        · by_cases hij : i = sid
          · subst hij
            show usersHas (mapSet sys.st.users i _) i = true
            rw [usersHas, usersFind_mapSet_self sys.st.users i _ rfl]
            rfl
          · show usersHas (mapSet sys.st.users sid _) i = true
            rw [usersHas, usersFind_mapSet_ne sys.st.users sid i _ rfl hij]
            exact hinv i hiact
  | draw sid d ts =>
      simp only [step] at h
      by_cases hm : sid ∈ sys.active
      · rw [if_pos hm] at h
        unfold handleDraw at h
        cases hf : usersFind sys.st.users sid with
        | none => rw [hf] at h; cases h
        | some u =>
            rw [hf] at h
            cases h
            intro i hi
            exact hinv i hi
      · rw [if_neg hm] at h; cases h
  | erase sid d ts =>
      simp only [step] at h
      by_cases hm : sid ∈ sys.active
      · rw [if_pos hm] at h
        cases h
        intro i hi
        exact hinv i hi
      · rw [if_neg hm] at h; cases h
  | cursorMove sid x y =>
      simp only [step] at h
      by_cases hm : sid ∈ sys.active
      · rw [if_pos hm] at h
        cases h
        intro i hi
        rw [handleCursorMove_has]
        exact hinv i hi
      · rw [if_neg hm] at h; cases h
  | undo sid =>
      simp only [step] at h
      by_cases hm : sid ∈ sys.active
      · rw [if_pos hm] at h
        cases h
        intro i hi
        show usersHas (handleUndo sys.st sid).1.users i = true
        rw [handleUndo_users]
        exact hinv i hi
      · rw [if_neg hm] at h; cases h
  | clearCanvas sid =>
      simp only [step] at h
      by_cases hm : sid ∈ sys.active
      · rw [if_pos hm] at h
        cases h
        intro i hi
        exact hinv i hi
      · rw [if_neg hm] at h; cases h
  | disconnect sid =>
      simp only [step] at h
      by_cases hm : sid ∈ sys.active
      · rw [if_pos hm] at h
        cases h
        intro i hi
        rcases List.mem_filter.mp hi with ⟨hiact, hine⟩
        have hne : i ≠ sid := by simpa using hine
        show usersHas (mapDelete sys.st.users sid) i = true
        rw [usersHas, usersFind_mapDelete_ne sys.st.users sid i hne]
        exact hinv i hiact
      · rw [if_neg hm] at h; cases h

theorem execFrom_preserves_activeRegistered (evs : List Event)
    (sys sys2 : SysState) (hinv : ActiveRegistered sys)
    (h : execFrom sys evs = some sys2) : ActiveRegistered sys2 := by
  induction evs generalizing sys with
  | nil =>
      unfold execFrom at h
      cases h
      exact hinv
  | cons e rest ih =>
      unfold execFrom at h
      cases hs : step sys e with
      | none => rw [hs] at h; cases h
      | some sysm =>
          rw [hs] at h
          exact ih sysm (step_preserves_activeRegistered sys sysm e hinv hs) h

/-- Claim C9: in every reachable state, every active connection (one whose
draw/erase/undo/cursorMove handlers can fire) has an entry in the user
registry, so the draw handler's unguarded `users.get(socket.id).color`
lookup never dereferences a missing record. -/
theorem active_connections_always_registered (evs : List Event)
    (sys : SysState) (h : exec evs = some sys) :
    (∀ i ∈ sys.active, usersHas sys.st.users i = true) ∧
    (∀ i ∈ sys.active, ∀ d ts,
      (handleDraw sys.st i d ts).isSome = true) := by
  have hinv : ActiveRegistered sys := by
    refine execFrom_preserves_activeRegistered evs initSys sys ?_ h
    intro i hi
    simp [initSys] at hi
  refine ⟨hinv, ?_⟩
  intro i hi d ts
  have hh := hinv i hi
  rw [usersHas] at hh
  cases hf : usersFind sys.st.users i with
  | none => rw [hf] at hh; simp at hh
  | some u => simp [handleDraw, hf]

/-- Witness for C9: after the run connect `a`, connect `b`,
disconnect `b`, draw by `a`, the remaining active connection `a` is
registered and its draw handler succeeds. -/
theorem active_connections_always_registered_witness :
    usersHas (⟨[⟨"a", "#FF6B6B", "User1", 0, 0⟩],
        [Command.draw "a" "#FF6B6B" 0 0 1 1 2 9]⟩ : State).users "a" =
      true ∧
    (handleDraw ⟨[⟨"a", "#FF6B6B", "User1", 0, 0⟩],
        [Command.draw "a" "#FF6B6B" 0 0 1 1 2 9]⟩ "a" ⟨0, 0, 1, 1, 2⟩
      9).isSome = true := by
  have h := active_connections_always_registered
    [Event.connect "a", Event.connect "b", Event.disconnect "b",
     Event.draw "a" ⟨0, 0, 1, 1, 2⟩ 9]
    ⟨["a"], ⟨[⟨"a", "#FF6B6B", "User1", 0, 0⟩],
      [Command.draw "a" "#FF6B6B" 0 0 1 1 2 9]⟩⟩ (by decide)
  exact ⟨h.1 "a" (by decide), h.2 "a" (by decide) ⟨0, 0, 1, 1, 2⟩ 9⟩

/-- Counterexample to C10 as stated: a `cursorMove` event from a
registered connection overwrites that record's stored cursor coordinates,
so connect and disconnect are not the only events that mutate the user
registry. -/
theorem cursorMove_mutates_registry :
    (handleCursorMove ⟨[⟨"a", "#FF6B6B", "User1", 0, 0⟩], []⟩
        "a" 1 2).1.users ≠ [⟨"a", "#FF6B6B", "User1", 0, 0⟩] := by
  decide

/-- Claim C10 (amended): draw, erase, undo and clearCanvas leave the user
registry completely unchanged; cursorMove, connect and disconnect leave
the history log completely unchanged — so only connect, disconnect and
cursorMove mutate the registry, and only draw, erase, undo and clearCanvas
mutate the log. -/
theorem handler_frame_conditions (s : State) (sid : String) (x y : Int)
    (dd : DrawData) (ed : EraseData) (ts : Nat) :
    (∀ r, handleDraw s sid dd ts = some r → r.1.users = s.users) ∧
    (handleErase s sid ed ts).1.users = s.users ∧
    (handleUndo s sid).1.users = s.users ∧
    (handleClearCanvas s sid).1.users = s.users ∧
    (handleCursorMove s sid x y).1.drawingHistory = s.drawingHistory ∧
    (handleConnect s sid).1.drawingHistory = s.drawingHistory ∧
    (handleDisconnect s sid).1.drawingHistory = s.drawingHistory := by
  refine ⟨?_, rfl, handleUndo_users s sid, rfl, ?_, rfl, rfl⟩
  · intro r hr
    unfold handleDraw at hr
    cases hf : usersFind s.users sid with
    | none => rw [hf] at hr; cases hr
    | some u => rw [hf] at hr; cases hr; rfl
  · unfold handleCursorMove
    cases usersFind s.users sid <;> rfl

/-- Witness for C10 at a one-user state with a one-command log; the draw
clause is instantiated at the concrete handler result. -/
theorem handler_frame_conditions_witness :
    ((⟨[⟨"a", "#FF6B6B", "User1", 0, 0⟩],
        [Command.erase "a" 0 0 1 5,
         Command.draw "a" "#FF6B6B" 0 0 1 1 2 7]⟩ : State),
      ([(Target.othersOf "a",
         Msg.draw (Command.draw "a" "#FF6B6B" 0 0 1 1 2 7))] :
        List (Target × Msg))).1.users =
      [⟨"a", "#FF6B6B", "User1", 0, 0⟩] ∧
    (handleErase ⟨[⟨"a", "#FF6B6B", "User1", 0, 0⟩],
        [Command.erase "a" 0 0 1 5]⟩ "a" ⟨0, 0, 1⟩ 7).1.users =
      [⟨"a", "#FF6B6B", "User1", 0, 0⟩] ∧
    (handleCursorMove ⟨[⟨"a", "#FF6B6B", "User1", 0, 0⟩],
        [Command.erase "a" 0 0 1 5]⟩ "a" 1 2).1.drawingHistory =
      [Command.erase "a" 0 0 1 5] := by
  have h := handler_frame_conditions
    ⟨[⟨"a", "#FF6B6B", "User1", 0, 0⟩], [Command.erase "a" 0 0 1 5]⟩
    "a" 1 2 ⟨0, 0, 1, 1, 2⟩ ⟨0, 0, 1⟩ 7
  exact ⟨h.1 _ (by decide), h.2.1, h.2.2.2.2.1⟩

end DrawServer
